import Mathlib

/-!
Verification of the memory-scanner core (scan engine, session controller,
Linux backend) against its specification.  Rust panics (assert failures,
`unwrap`, `panic!`, arithmetic underflow in debug builds) are modelled by
`none` / a missing result; fallible reads return `Option`.
-/

set_option autoImplicit false

namespace MemScan

/-- A point-in-time snapshot of the target's memory: `none` means the byte at
that address is unmapped / unreadable. -/
def Mem : Type := Nat → Option Nat

/-- Option-valued traversal of a list: `none` as soon as one element fails,
modelling a Rust loop that panics (or propagates) at the first failure. -/
def mapOpt {α β : Type} (f : α → Option β) : List α → Option (List β)
  | [] => some []
  | a :: l =>
    match f a, mapOpt f l with
    | some b, some bl => some (b :: bl)
    | _, _ => none

/-- All-or-nothing read of `len` bytes starting at `start`, byte for byte:
the model of `Process::read_memory_slice` as the scan engine uses it
(success exactly when every requested byte is readable). -/
def readBytes (m : Mem) : Nat → Nat → Option (List Nat)
  | _start, 0 => some []
  | start, len + 1 =>
    match m start, readBytes m (start + 1) len with
    | some b, some rest => some (b :: rest)
    | _, _ => none

/-- Model of `core::MemoryRegion.range` as used by the engine: `start..start+size`. -/
structure Region where
  start : Nat
  size : Nat
  deriving DecidableEq

/-- Model of `scanner::Scanner`'s interior state: candidate addresses in scan order
and the element width recorded at the last `new_scan`. -/
structure Scanner where
  addresses : List Nat
  value_size : Nat
  deriving DecidableEq

/-- The `sizeof(T)` bytes at byte offset `off` of a region buffer. -/
def readSlice (buf : List Nat) (off len : Nat) : List Nat := (buf.drop off).take len

/-- One region pass of `Scanner::new_scan` (src/scanner/src/lib.rs:33-55):
a failed region read is skipped (`continue`); on success the loop bound is
`0..region_buffer.len() - size_of::<T>()`, whose `usize` subtraction panics
when the buffer is shorter than `size_of::<T>()` (modelled as `none`); the
predicate itself can panic (`pred _ = none`). -/
def evalRegion (pred : List Nat → Option Bool) (w : Nat) (m : Mem) (r : Region) :
    Option (List Nat) :=
  match readBytes m r.start r.size with
  | none => some []
  | some buf =>
    if buf.length < w then none
    else
      (mapOpt (fun off => (pred (readSlice buf off w)).map (fun b => (r.start + off, b)))
          (List.range (buf.length - w))).map
        (fun l => (l.filter (fun q => q.2)).map Prod.fst)

/-- Model of `Scanner::new_scan` (src/scanner/src/lib.rs:26-56): clear the candidate
set, record `size_of::<T>()`, walk every region and append the matching
offsets in order. -/
def new_scan (pred : List Nat → Option Bool) (w : Nat) (regions : List Region) (m : Mem) :
    Option Scanner :=
  (mapOpt (evalRegion pred w m) regions).map
    (fun hl => { addresses := hl.flatten, value_size := w })

/-- Model of `Scanner::next_scan` (src/scanner/src/lib.rs:58-79): assert
`size_of::<T>() <= value_size` (panic otherwise), then `filter_map` the
candidate list — a failed address read drops the address, a surviving one is
kept iff the predicate holds. -/
def next_scan (pred : List Nat → Option Bool) (w : Nat) (m : Mem) (s : Scanner) :
    Option Scanner :=
  if w ≤ s.value_size then
    (mapOpt (fun a =>
        match readBytes m a w with
        | none => some (a, false)
        | some buf => (pred buf).map (fun b => (a, b))) s.addresses).map
      (fun l => { addresses := (l.filter (fun q => q.2)).map Prod.fst,
                  value_size := s.value_size })
  else none

/-- Model of `Scanner::scan_result` / `ScanResult` (src/scanner/src/lib.rs:81-127):
`ScanResult::new` asserts `size_of::<T>() > value_size` (panic otherwise);
iterating it reads each candidate address and `unwrap`s the read (panic on
any failed read).  The method takes no offset/limit parameters. -/
def scan_result (w : Nat) (m : Mem) (s : Scanner) : Option (List (Nat × List Nat)) :=
  if s.value_size < w then
    mapOpt (fun a => (readBytes m a w).map (fun buf => (a, buf))) s.addresses
  else none

/-- A total (never-panicking) predicate, as used by a plain value compare. -/
def liftP (p : List Nat → Bool) : List Nat → Option Bool := fun b => some (p b)

/-- Whether address `a` currently holds `w` readable bytes satisfying `p`
(a failed read counts as not matching, as in `next_scan`). -/
def keep (p : List Nat → Bool) (w : Nat) (m : Mem) (a : Nat) : Bool :=
  match readBytes m a w with
  | some buf => p buf
  | none => false

/-- The addresses `new_scan` collects from one region: a failed read
contributes nothing; a successful read contributes `r.start + off` for every
`off` in the exclusive range `0..buf.length - w` where the predicate holds. -/
def hits (p : List Nat → Bool) (w : Nat) (m : Mem) (r : Region) : List Nat :=
  match readBytes m r.start r.size with
  | none => []
  | some buf =>
    ((List.range (buf.length - w)).filter (fun off => p (readSlice buf off w))).map
      (fun off => r.start + off)

/-- A chain of `next_scan` calls with total predicates, left to right. -/
def nextScans (w : Nat) (m : Mem) : List (List Nat → Bool) → Scanner → Option Scanner
  | [], s => some s
  | p :: ps, s =>
    match next_scan (liftP p) w m s with
    | none => none
    | some s' => nextScans w m ps s'

def pTrue : List Nat → Bool := fun _ => true

def p0W : List Nat → Bool := fun buf => decide (buf = [1])

def memW : Mem := fun a => if a < 3 then some a else none

/-- The per-region offset walk the C2 claim describes, with the INCLUSIVE
upper bound `0 ≤ off ≤ |R| − sizeof(T)` taken from the spec's words; written
only for comparison against the source's `new_scan` per-region walk. -/
def hitsSpecIncl (p : List Nat → Bool) (w : Nat) (m : Mem) (r : Region) : List Nat :=
  match readBytes m r.start r.size with
  | none => []
  | some buf =>
    ((List.range (buf.length - w + 1)).filter (fun off => p (readSlice buf off w))).map
      (fun off => r.start + off)

def mem4 : Mem := fun a => if a < 4 then some 7 else none

def mem5 : Mem := fun a => if a < 5 then some 1 else none

def mem2 : Mem := fun a => if a < 2 then some 0 else none

/-- A `serde_json::Number` as the controller sees it: an integer numeral
(serde stores non-negative ones as `u64`, negative ones as `i64`, so the
representable integers are `−2^63 ≤ n < 2^64`) or a non-integral numeral. -/
inductive JNumber where
  | int : Int → JNumber
  | float : JNumber
  deriving DecidableEq

/-- Model of `serde_json::Number::is_i64`: true exactly for integers representable in
a signed 64-bit integer. -/
def JNumber.is_i64 : JNumber → Bool
  | .int n => decide (-(2 ^ 63) ≤ n) && decide (n < 2 ^ 63)
  | .float => false

/-- Model of `serde_json::Number::as_i64`. -/
def JNumber.as_i64 : JNumber → Option Int
  | .int n => if -(2 ^ 63) ≤ n ∧ n < 2 ^ 63 then some n else none
  | .float => none

/-- Model of `serde_json::Number::as_u64`. -/
def JNumber.as_u64 : JNumber → Option Nat
  | .int n => if 0 ≤ n ∧ n < 2 ^ 64 then some n.toNat else none
  | .float => none

/-- Model of `i32::try_from` on an `i64` value: succeeds exactly in i32 range. -/
def i32_try_from (v : Int) : Option Int :=
  if -(2 ^ 31) ≤ v ∧ v < 2 ^ 31 then some v else none

/-- Model of `u32::try_from` on a `u64` value: succeeds exactly below `2^32`. -/
def u32_try_from (u : Nat) : Option Nat :=
  if u < 2 ^ 32 then some u else none

/-- Little-endian reinterpretation of a byte list as an unsigned integer. -/
def decodeLE : List Nat → Nat
  | [] => 0
  | b :: rest => b + 256 * decodeLE rest

/-- The signed 32-bit value of 4 little-endian bytes (two's complement). -/
def i32OfBytes (buf : List Nat) : Int :=
  let n : Nat := decodeLE buf % 2 ^ 32
  if n < 2 ^ 31 then (n : Int) else (n : Int) - 2 ^ 32

/-- The unsigned 32-bit value of 4 little-endian bytes. -/
def u32OfBytes (buf : List Nat) : Nat := decodeLE buf % 2 ^ 32

/-- The closure the controller hands the engine on the signed dword path
(src/context/src/lib.rs:121-123):
`|&x| x == i32::try_from(value.as_i64().unwrap()).unwrap()` — both `unwrap`s
run inside the closure, i.e. per evaluated candidate, so an out-of-range
literal panics only when the predicate is actually invoked. -/
def dwordSignedPred (v : JNumber) : List Nat → Option Bool := fun buf =>
  match v.as_i64 with
  | none => none
  | some i =>
    match i32_try_from i with
    | none => none
    | some iv => some (decide (i32OfBytes buf = iv))

/-- The closure the controller hands the engine on the unsigned dword path
(src/context/src/lib.rs:126-128):
`|&x| x == u32::try_from(value.as_u64().unwrap()).unwrap()`. -/
def dwordUnsignedPred (v : JNumber) : List Nat → Option Bool := fun buf =>
  match v.as_u64 with
  | none => none
  | some u =>
    match u32_try_from u with
    | none => none
    | some uv => some (decide (u32OfBytes buf = uv))

/-- Model of `context::ScanValueType` (src/context/src/lib.rs:27-34). -/
inductive ScanValueType where
  | byte | word | dword | qword | float | double
  deriving DecidableEq

/-- Model of `context::ScannerContext`'s session state (src/context/src/lib.rs:74-80);
the spawned child handle is irrelevant to the claims and omitted. -/
structure ScannerContext where
  scanner : Option Scanner
  value_type : Option ScanValueType
  signed : Option Bool
  deriving DecidableEq

/-- Model of `ScannerContext::new_scan` (src/context/src/lib.rs:109-139): unwrap the
scanner (panic when no process is selected), dispatch on the value kind —
only `DWORD` is implemented, every other kind hits `panic!(".. not
supported")` — pick the signed path iff `value.is_i64()`, run the engine
scan, then record signedness and kind and return the candidate count. -/
def ctx_new_scan (regions : List Region) (m : Mem) (st : ScannerContext)
    (ty : ScanValueType) (v : JNumber) : Option (Nat × ScannerContext) :=
  match st.scanner with
  | none => none
  | some _ =>
    match ty with
    | .dword =>
      if v.is_i64 then
        (new_scan (dwordSignedPred v) 4 regions m).map (fun sc =>
          (sc.addresses.length,
            { scanner := some sc, value_type := some .dword, signed := some true }))
      else
        (new_scan (dwordUnsignedPred v) 4 regions m).map (fun sc =>
          (sc.addresses.length,
            { scanner := some sc, value_type := some .dword, signed := some false }))
    | _ => none

/-- Model of `ScannerContext::next_scan` (src/context/src/lib.rs:141-170): identical
dispatch to `ctx_new_scan` — note that the stored `value_type`/`signed` are
never consulted, only overwritten — calling the engine's `next_scan`. -/
def ctx_next_scan (m : Mem) (st : ScannerContext) (ty : ScanValueType) (v : JNumber) :
    Option (Nat × ScannerContext) :=
  match st.scanner with
  | none => none
  | some sc =>
    match ty with
    | .dword =>
      if v.is_i64 then
        (next_scan (dwordSignedPred v) 4 m sc).map (fun sc' =>
          (sc'.addresses.length,
            { scanner := some sc', value_type := some .dword, signed := some true }))
      else
        (next_scan (dwordUnsignedPred v) 4 m sc).map (fun sc' =>
          (sc'.addresses.length,
            { scanner := some sc', value_type := some .dword, signed := some false }))
    | _ => none

/-- Model of `ScannerContext::scan_result` (src/context/src/lib.rs:172-189): unwrap
the stored kind and signedness, accept only `(DWORD, signed)` (anything else
panics), unwrap the scanner and iterate the engine's `ScanResult::<i32>`.
The Rust call passes `(offset, limit)` although the engine method declares
no such parameters (the crates do not type-check together); the engine
method as defined is modelled. -/
def ctx_scan_result (m : Mem) (st : ScannerContext) : Option (List (Nat × Int)) :=
  match st.value_type, st.signed with
  | some .dword, some true =>
    match st.scanner with
    | none => none
    | some sc => (scan_result 4 m sc).map (fun l => l.map (fun q => (q.1, i32OfBytes q.2)))
  | _, _ => none

/-- Model of `ScannerContext::select_process` (src/context/src/lib.rs:91-96): build a
process handle for `pid`, install a fresh engine (`Scanner::new`: empty
candidate list, `value_size` 0) and return the `{pid, name}` of the target;
`value_type` and `signed` are not touched. -/
def select_process (st : ScannerContext) (pid : Int) (name : String) :
    (Int × String) × ScannerContext :=
  ((pid, name), { st with scanner := some { addresses := [], value_size := 0 } })

/-- Outcome of one `process_vm_readv`/`process_vm_writev` call: the number
of bytes the kernel actually moved, or an errno description. -/
inductive SysResult where
  | ok : Nat → SysResult
  | err : String → SysResult
  deriving DecidableEq

/-- Model of `linux::Process::read_memory_slice` (src/linux/src/lib.rs:78-96): issue
one `process_vm_readv` for `len` bytes and map `Ok(_) => Ok(())` —
discarding the transferred-byte count — and `Err(errno) => Err(desc)`. -/
def read_memory_slice (_len : Nat) (sys : SysResult) : Except String Unit :=
  match sys with
  | .ok _ => .ok ()
  | .err e => .error e

/-- Model of `linux::Process::write_memory_slice` (src/linux/src/lib.rs:106-126):
same shape over `process_vm_writev`. -/
def write_memory_slice (_len : Nat) (sys : SysResult) : Except String Unit :=
  match sys with
  | .ok _ => .ok ()
  | .err e => .error e

/-- Model of `core::MemoryPermission`. -/
inductive MemoryPermission where
  | READONLY | READWRITE | NONE
  deriving DecidableEq

/-- Model of `core::MemoryKind`. -/
inductive MemoryKind where
  | STATIC | STACK | HEAP | UNKNOWN
  deriving DecidableEq

/-- One parsed line of `/proc/<pid>/maps`: the hex `begin-end` range, the
permission decoded from the first two characters of column 2, and the sixth
column (pathname/label) as characters. -/
structure MapsLine where
  start : Nat
  stop : Nat
  perm : MemoryPermission
  info : List Char
  deriving DecidableEq

/-- Model of `core::MemoryRegion`. -/
structure MemoryRegion where
  start : Nat
  stop : Nat
  permission : MemoryPermission
  kind : MemoryKind
  deriving DecidableEq

/-- Whether `pat` is a leading prefix of `hay` (character-wise). -/
def hasPrefixCh : List Char → List Char → Bool
  | _, [] => true
  | [], _ :: _ => false
  | a :: as, b :: bs => a = b && hasPrefixCh as bs

/-- Model of `str::contains` for a literal pattern: `pat` occurs contiguously in
`hay`. -/
def containsSub (pat : List Char) : List Char → Bool
  | [] => pat.isEmpty
  | c :: t => hasPrefixCh (c :: t) pat || containsSub pat t

/-- The kind assignment of the Linux region enumerator
(src/linux/src/lib.rs:201-209): `"stack"` → STACK, else `"heap"` → HEAP,
else a line whose label contains the process's `comm` name → UNKNOWN, else
the line is skipped (`continue`), modelled as `none`. -/
def lineKind (name : List Char) (info : List Char) : Option MemoryKind :=
  if containsSub "stack".toList info then some MemoryKind.STACK
  else if containsSub "heap".toList info then some MemoryKind.HEAP
  else if containsSub name info then some MemoryKind.UNKNOWN
  else none

/-- Model of `2^64`, the modulus of wrapping `usize` arithmetic on the 64-bit
targets in scope. -/
def U64 : Nat := 2 ^ 64

/-- The full run of `linux::MemoryRegionIterator::next`
(src/linux/src/lib.rs:180-220) over the parsed maps lines, in file order:
a line with `start ≥ offset` is emitted (or skipped if no kind matches);
otherwise — i.e. only when `start < offset` — the code evaluates
`range.start - self.offset >= self.limit`, whose `usize` subtraction
underflows; a debug build panics there, a release build wraps modulo `2^64`
(modelled here) and, when the wrapped difference reaches `limit`, iteration
returns `None`. -/
def regionsFrom (name : List Char) (offset limit : Nat) : List MapsLine → List MemoryRegion
  | [] => []
  | l :: rest =>
    if offset ≤ l.start then
      match lineKind name l.info with
      | some k =>
        { start := l.start, stop := l.stop, permission := l.perm, kind := k } ::
          regionsFrom name offset limit rest
      | none => regionsFrom name offset limit rest
    else if (l.start + U64 - offset) % U64 ≥ limit then []
    else regionsFrom name offset limit rest

def memAny : Mem := fun _ => none

def stackInfo : List Char := "[stack]".toList

theorem mapOpt_eq_map {α β : Type} (f : α → Option β) (g : α → β) :
    ∀ l : List α, (∀ a ∈ l, f a = some (g a)) → mapOpt f l = some (l.map g)
  | [], _ => rfl
  | a :: l, h => by
    have ha := h a (List.mem_cons_self a l)
    have ht := mapOpt_eq_map f g l (fun x hx => h x (List.mem_cons_of_mem a hx))
    simp [mapOpt, ha, ht]

theorem mapOpt_eq_none {α β : Type} (f : α → Option β) {a : α} :
    ∀ {l : List α}, a ∈ l → f a = none → mapOpt f l = none := by
  intro l
  induction l with
  | nil => intro h; exact absurd h (List.not_mem_nil a)
  | cons hd tl ih =>
    intro hmem hfa
    rcases List.mem_cons.mp hmem with h | h
    · subst h
      cases htl : mapOpt f tl <;> simp [mapOpt, hfa, htl]
    · cases hhd : f hd <;> simp [mapOpt, hhd, ih h hfa]

theorem mapOpt_some_forall {α β : Type} (f : α → Option β) (g : α → β)
    (hg : ∀ a b, f a = some b → b = g a) :
    ∀ {l : List α} {ys : List β}, mapOpt f l = some ys → ys = l.map g := by
  intro l
  induction l with
  | nil => intro ys h; simpa [mapOpt] using h.symm
  | cons hd tl ih =>
    intro ys h
    cases hhd : f hd with
    | none => simp [mapOpt, hhd] at h
    | some b =>
      cases htl : mapOpt f tl with
      | none => simp [mapOpt, hhd, htl] at h
      | some bl =>
        simp [mapOpt, hhd, htl] at h
        subst h
        simp [hg hd b hhd, ih htl]

theorem readBytes_length (m : Mem) :
    ∀ (len start : Nat) (buf : List Nat), readBytes m start len = some buf →
      buf.length = len := by
  intro len
  induction len with
  | zero =>
    intro start buf h
    simp [readBytes] at h
    subst h
    rfl
  | succ n ih =>
    intro start buf h
    cases hms : m start with
    | none => simp [readBytes, hms] at h
    | some b =>
      cases hrb : readBytes m (start + 1) n with
      | none => simp [readBytes, hms, hrb] at h
      | some rest =>
        simp [readBytes, hms, hrb] at h
        subst h
        simp [ih (start + 1) rest hrb]

theorem readBytes_take (m : Mem) :
    ∀ (w len start : Nat) (buf : List Nat), readBytes m start len = some buf →
      w ≤ len → readBytes m start w = some (buf.take w) := by
  intro w
  induction w with
  | zero => intro len start buf _ _; simp [readBytes]
  | succ n ih =>
    intro len start buf h hle
    cases len with
    | zero => omega
    | succ k =>
      cases hms : m start with
      | none => simp [readBytes, hms] at h
      | some b =>
        cases hrb : readBytes m (start + 1) k with
        | none => simp [readBytes, hms, hrb] at h
        | some rest =>
          simp [readBytes, hms, hrb] at h
          subst h
          have := ih k (start + 1) rest hrb (by omega)
          simp [readBytes, hms, this]

theorem readBytes_drop (m : Mem) :
    ∀ (off len start : Nat) (buf : List Nat), readBytes m start len = some buf →
      off ≤ len → readBytes m (start + off) (len - off) = some (buf.drop off) := by
  intro off
  induction off with
  | zero => intro len start buf h _; simpa using h
  | succ n ih =>
    intro len start buf h hle
    cases len with
    | zero => omega
    | succ k =>
      cases hms : m start with
      | none => simp [readBytes, hms] at h
      | some b =>
        cases hrb : readBytes m (start + 1) k with
        | none => simp [readBytes, hms, hrb] at h
        | some rest =>
          simp [readBytes, hms, hrb] at h
          subst h
          have := ih k (start + 1) rest hrb (by omega)
          have harith : start + 1 + n = start + (n + 1) := by omega
          rw [harith] at this
          simpa [Nat.succ_sub_succ] using this

theorem readBytes_sub (m : Mem) (start len off w : Nat) (buf : List Nat)
    (h : readBytes m start len = some buf) (hle : off + w ≤ len) :
    readBytes m (start + off) w = some (readSlice buf off w) :=
  readBytes_take m w (len - off) (start + off) (buf.drop off)
    (readBytes_drop m off len start buf h (by omega)) (by omega)

theorem filter_pair_map {α β : Type} (h : α → β) (q : α → Bool) :
    ∀ l : List α,
      ((l.map (fun a => (h a, q a))).filter (fun x => x.2)).map Prod.fst = (l.filter q).map h
  | [] => rfl
  | a :: l => by
    cases hq : q a <;> simp [List.filter_cons, hq, filter_pair_map h q l]

theorem evalRegion_lift_eq (p : List Nat → Bool) (w : Nat) (m : Mem) (r : Region)
    (l : List Nat) (h : evalRegion (liftP p) w m r = some l) : l = hits p w m r := by
  unfold evalRegion at h
  unfold hits
  cases hrb : readBytes m r.start r.size with
  | none =>
    rw [hrb] at h
    simpa using h.symm
  | some buf =>
    rw [hrb] at h
    simp only [] at h
    simp only []
    by_cases hlt : buf.length < w
    · rw [if_pos hlt] at h; simp at h
    · rw [if_neg hlt] at h
      have hmap := mapOpt_eq_map
        (fun off => ((liftP p) (readSlice buf off w)).map (fun b => (r.start + off, b)))
        (fun off => (r.start + off, p (readSlice buf off w)))
        (List.range (buf.length - w)) (fun off _ => rfl)
      rw [hmap] at h
      simp only [Option.map_some', Option.some.injEq] at h
      rw [← h]
      exact filter_pair_map (fun off => r.start + off)
        (fun off => p (readSlice buf off w)) (List.range (buf.length - w))

theorem new_scan_lift_eq (p : List Nat → Bool) (w : Nat) (regions : List Region) (m : Mem)
    (s : Scanner) (h : new_scan (liftP p) w regions m = some s) :
    s = { addresses := (regions.map (hits p w m)).flatten, value_size := w } := by
  unfold new_scan at h
  cases hmo : mapOpt (evalRegion (liftP p) w m) regions with
  | none => rw [hmo] at h; simp at h
  | some hl =>
    rw [hmo] at h
    simp at h
    have hhl := mapOpt_some_forall (evalRegion (liftP p) w m) (hits p w m)
      (fun r l hrl => evalRegion_lift_eq p w m r l hrl) hmo
    rw [← h, hhl]

theorem hits_mem_keep (p : List Nat → Bool) (w : Nat) (m : Mem) (r : Region) (a : Nat)
    (ha : a ∈ hits p w m r) : keep p w m a = true := by
  unfold hits at ha
  cases hrb : readBytes m r.start r.size with
  | none => rw [hrb] at ha; simp at ha
  | some buf =>
    rw [hrb] at ha
    rcases List.mem_map.mp ha with ⟨off, hoff, rfl⟩
    rcases List.mem_filter.mp hoff with ⟨hrange, hp⟩
    have hofflt := List.mem_range.mp hrange
    have hlen := readBytes_length m r.size r.start buf hrb
    have hsub := readBytes_sub m r.start r.size off w buf hrb (by omega)
    simp only [keep, hsub]
    exact hp

theorem new_scan_mem_keep (p : List Nat → Bool) (w : Nat) (regions : List Region) (m : Mem)
    (s : Scanner) (h : new_scan (liftP p) w regions m = some s) :
    ∀ a ∈ s.addresses, keep p w m a = true := by
  intro a ha
  rw [new_scan_lift_eq p w regions m s h] at ha
  simp only [List.mem_flatten, List.mem_map] at ha
  rcases ha with ⟨l, ⟨r, _, rfl⟩, hmem⟩
  exact hits_mem_keep p w m r a hmem

theorem next_scan_lift_eq (p : List Nat → Bool) (w : Nat) (m : Mem) (s : Scanner)
    (hw : w ≤ s.value_size) :
    next_scan (liftP p) w m s =
      some { addresses := s.addresses.filter (keep p w m), value_size := s.value_size } := by
  unfold next_scan
  rw [if_pos hw]
  have hmap := mapOpt_eq_map
    (fun a => match readBytes m a w with
      | none => some (a, false)
      | some buf => ((liftP p) buf).map (fun b => (a, b)))
    (fun a => (a, keep p w m a)) s.addresses ?side
  case side =>
    intro a _
    cases hb : readBytes m a w <;> simp [liftP, keep, hb]
  rw [hmap]
  have hfp := filter_pair_map (fun a : Nat => a) (keep p w m) s.addresses
  simp only [List.map_id'] at hfp
  simp [hfp]

theorem mapOpt_fst {β : Type} (f : Nat → Option (Nat × β))
    (hf : ∀ a b, f a = some b → b.1 = a) :
    ∀ {l : List Nat} {ys : List (Nat × β)}, mapOpt f l = some ys → ys.map Prod.fst = l := by
  intro l
  induction l with
  | nil =>
    intro ys h
    simp [mapOpt] at h
    simp [← h]
  | cons hd tl ih =>
    intro ys h
    cases hhd : f hd with
    | none => simp [mapOpt, hhd] at h
    | some b =>
      cases htl : mapOpt f tl with
      | none => simp [mapOpt, hhd, htl] at h
      | some bl =>
        simp [mapOpt, hhd, htl] at h
        subst h
        simp [hf hd b hhd, ih htl]

theorem next_scan_sublist (pred : List Nat → Option Bool) (w : Nat) (m : Mem) (s s' : Scanner)
    (h : next_scan pred w m s = some s') : s'.addresses.Sublist s.addresses := by
  unfold next_scan at h
  by_cases hw : w ≤ s.value_size
  · rw [if_pos hw] at h
    cases hmo : mapOpt (fun a =>
        match readBytes m a w with
        | none => some (a, false)
        | some buf => (pred buf).map (fun b => (a, b))) s.addresses with
    | none => rw [hmo] at h; simp at h
    | some l =>
      rw [hmo] at h
      simp at h
      have hfst : l.map Prod.fst = s.addresses := by
        refine mapOpt_fst _ ?_ hmo
        intro a b hb
        cases hr : readBytes m a w with
        | none => rw [hr] at hb; simp at hb; simp [← hb]
        | some buf =>
          rw [hr] at hb
          simp only [] at hb
          cases hp : pred buf with
          | none => rw [hp] at hb; simp at hb
          | some bo => rw [hp] at hb; simp at hb; simp [← hb]
      rw [← h]
      have hsub : ((l.filter fun q => q.2).map Prod.fst).Sublist (l.map Prod.fst) :=
        List.Sublist.map Prod.fst (List.filter_sublist l)
      rw [hfst] at hsub
      exact hsub
  · rw [if_neg hw] at h; simp at h

theorem nextScans_eq (w : Nat) (m : Mem) :
    ∀ (ps : List (List Nat → Bool)) (s : Scanner), w ≤ s.value_size →
      nextScans w m ps s =
        some { addresses := s.addresses.filter (fun a => ps.all (fun p => keep p w m a)),
               value_size := s.value_size }
  | [], s, _ => by simp [nextScans]
  | p :: ps, s, hw => by
    unfold nextScans
    rw [next_scan_lift_eq p w m s hw]
    have hrec := nextScans_eq w m ps
      { addresses := s.addresses.filter (keep p w m), value_size := s.value_size } hw
    simp only []
    rw [hrec]
    simp [List.filter_filter, Bool.and_comm]

/-- C1: on an unchanging target, `new_scan(p0); next_scan(p1); … next_scan(pk)`
(all of the stored width) succeeds and leaves exactly those `new_scan`
candidates at which every one of `p0 … pk` holds of the current value, in the
original order; moreover every single successful `next_scan` yields a sublist
(subsequence — only shrink or keep, never grow or reorder) of the previous
candidate list. -/
theorem c1_scan_sequence_filter (p0 : List Nat → Bool) (ps : List (List Nat → Bool))
    (w : Nat) (regions : List Region) (m : Mem) (s0 : Scanner)
    (h0 : new_scan (liftP p0) w regions m = some s0) :
    (nextScans w m ps s0 =
      some { addresses := s0.addresses.filter (fun a => (p0 :: ps).all (fun p => keep p w m a)),
             value_size := w })
    ∧ ∀ (q : List Nat → Bool) (s s' : Scanner),
        next_scan (liftP q) w m s = some s' → s'.addresses.Sublist s.addresses := by
  have hvs : s0.value_size = w := by rw [new_scan_lift_eq p0 w regions m s0 h0]
  constructor
  · rw [nextScans_eq w m ps s0 (by omega), hvs]
    have hcongr : s0.addresses.filter (fun a => ps.all (fun p => keep p w m a)) =
        s0.addresses.filter (fun a => (p0 :: ps).all (fun p => keep p w m a)) := by
      apply List.filter_congr
      intro a ha
      simp [List.all_cons, new_scan_mem_keep p0 w regions m s0 h0 a ha]
    rw [hcongr]
  · intro q s s' h
    exact next_scan_sublist (liftP q) w m s s' h

theorem c1_witness :
    nextScans 1 memW [pTrue] { addresses := [1], value_size := 1 } =
      some { addresses := [1], value_size := 1 } := by
  have h := (c1_scan_sequence_filter p0W [pTrue] 1 [⟨0, 3⟩] memW
    { addresses := [1], value_size := 1 } (by decide)).1
  rw [h]
  decide

/-- C2 counterexample: on a fully readable 4-byte region scanned for a 4-byte
type with an always-true predicate, the claim (offsets tested up to and
including `|R| − sizeof(T)`) demands that offset 0 be tested and `R.start`
appended, but the source's `new_scan` (exclusive loop bound
`0..len − size_of::<T>()`, src/scanner/src/lib.rs:43) appends nothing. -/
theorem c2_counterexample :
    new_scan (liftP pTrue) 4 [⟨0, 4⟩] mem4 = some { addresses := [], value_size := 4 } ∧
    hitsSpecIncl pTrue 4 mem4 ⟨0, 4⟩ = [0] := by
  constructor <;> decide

/-- C2 (amended): for every region of a successful `new_scan`, the offsets
tested are exactly `0 ≤ off < |R| − sizeof(T)` — exclusive upper bound, so
the value occupying the last `sizeof(T)` bytes of the region is NOT tested —
and `R.start + off` is appended exactly when the predicate holds of the
`sizeof(T)` bytes at `off`; the candidate set is the in-order concatenation
of the per-region hit lists. -/
theorem c2_exclusive_offsets (p : List Nat → Bool) (w : Nat) (regions : List Region)
    (m : Mem) (s : Scanner) (h : new_scan (liftP p) w regions m = some s) :
    s.addresses = (regions.map (hits p w m)).flatten ∧
    ∀ (r : Region) (buf : List Nat), readBytes m r.start r.size = some buf →
      hits p w m r =
        ((List.range (buf.length - w)).filter (fun off => p (readSlice buf off w))).map
          (fun off => r.start + off) := by
  constructor
  · rw [new_scan_lift_eq p w regions m s h]
  · intro r buf hrb
    simp [hits, hrb]

theorem c2_witness :
    ({ addresses := [0], value_size := 4 } : Scanner).addresses =
      ([⟨0, 5⟩].map (hits pTrue 4 mem5)).flatten :=
  (c2_exclusive_offsets pTrue 4 [⟨0, 5⟩] mem5 { addresses := [0], value_size := 4 }
    (by decide)).1

/-- C10: when the region enumerator hands `new_scan` a region that reads
successfully but is shorter than `sizeof(T)`, the loop bound
`region_buffer.len() - size_of::<T>()` underflows the unsigned subtraction
(src/scanner/src/lib.rs:43) and the scan panics (wrapping builds instead
index out of the buffer's bounds) rather than skipping the region. -/
theorem c10_short_region_panics (pred : List Nat → Option Bool) (w : Nat)
    (regions : List Region) (m : Mem) (r : Region) (buf : List Nat)
    (hr : r ∈ regions) (hb : readBytes m r.start r.size = some buf)
    (hshort : buf.length < w) :
    new_scan pred w regions m = none := by
  have hev : evalRegion pred w m r = none := by
    unfold evalRegion
    rw [hb]
    simp only []
    rw [if_pos hshort]
  unfold new_scan
  rw [mapOpt_eq_none (evalRegion pred w m) hr hev]
  rfl

theorem c10_witness : new_scan (liftP pTrue) 4 [⟨0, 2⟩] mem2 = none :=
  c10_short_region_panics (liftP pTrue) 4 [⟨0, 2⟩] mem2 ⟨0, 2⟩ [0, 0]
    (by decide) (by decide) (by decide)

/-- C3 (code bug): `ScanResult::new` asserts `size_of::<T>() > value_size`
(src/scanner/src/lib.rs:103), so a `scan_result` with the SAME width as the
preceding `new_scan` (4 = 4 for the stored dword kind) fails the assertion
and panics instead of returning `(address, value)` pairs — whatever the
current memory `mNow` holds.  (The controller, src/context/src/lib.rs:180,
moreover passes `(offset, limit)` to this engine method, which is declared
without pagination parameters.) -/
theorem c3_equal_width_scan_result_panics (pred : List Nat → Option Bool)
    (regions : List Region) (m mNow : Mem) (s : Scanner)
    (h : new_scan pred 4 regions m = some s) :
    scan_result 4 mNow s = none := by
  have hvs : s.value_size = 4 := by
    unfold new_scan at h
    cases hmo : mapOpt (evalRegion pred 4 m) regions with
    | none => rw [hmo] at h; simp at h
    | some hl => rw [hmo] at h; simp at h; rw [← h]
  unfold scan_result
  rw [hvs]
  simp

theorem c3_witness : scan_result 4 mem2 { addresses := [], value_size := 4 } = none :=
  c3_equal_width_scan_result_panics (liftP pTrue) [] mem2 mem2
    { addresses := [], value_size := 4 } (by decide)

/-- C4 counterexample: with stored state `(DWORD, signed)` and an empty
candidate set, a `next_scan` whose literal `2^63` derives the OPPOSITE
signedness (unsigned) is not rejected at all: it succeeds with count 0 and
silently overwrites the stored signedness with `false`, instead of failing
with a scan-type-mismatch error and leaving the session state unchanged. -/
theorem c4_counterexample :
    ctx_next_scan memAny
        { scanner := some { addresses := [], value_size := 4 },
          value_type := some .dword, signed := some true }
        .dword (JNumber.int (2 ^ 63)) =
      some (0, { scanner := some { addresses := [], value_size := 4 },
                 value_type := some .dword, signed := some false }) := by
  decide

/-- C4 (amended): `next_scan` performs no scan-type check whatsoever — its
outcome is entirely independent of the stored kind and signedness (which it
only overwrites), and a request with any kind other than `dword` panics with
a "not supported" message (never a scan-type-mismatch error), whatever the
stored kind is. -/
theorem c4_no_type_check (m : Mem) (st : ScannerContext) (ty : ScanValueType)
    (v : JNumber) (vt : Option ScanValueType) (sg : Option Bool) :
    ctx_next_scan m { st with value_type := vt, signed := sg } ty v =
      ctx_next_scan m st ty v
    ∧ (ty ≠ ScanValueType.dword → ctx_next_scan m st ty v = none) := by
  constructor
  · rfl
  · intro hne
    unfold ctx_next_scan
    cases hsc : st.scanner <;> cases ty <;> simp_all

theorem c4_witness :
    ctx_next_scan memAny
        { scanner := some { addresses := [], value_size := 4 },
          value_type := none, signed := none } .word (JNumber.int 5) = none :=
  (c4_no_type_check memAny
    { scanner := some { addresses := [], value_size := 4 },
      value_type := none, signed := none } .word (JNumber.int 5) none none).2 (by decide)

/-- C5 counterexample: `new_scan` with `dword` value 100 — a number
representable as a non-negative integer, which the claim says is recorded
as unsigned — records `signed = true` (because `Number::is_i64` is true for
100, src/context/src/lib.rs:120) and compares as a SIGNED 32-bit integer. -/
theorem c5_counterexample :
    ctx_new_scan [] memAny
        { scanner := some { addresses := [], value_size := 0 },
          value_type := none, signed := none } .dword (JNumber.int 100) =
      some (0, { scanner := some { addresses := [], value_size := 4 },
                 value_type := some .dword, signed := some true }) := by
  decide

/-- C5 (amended): on every successful first (dword) scan the recorded
signedness is exactly `is_i64` of the literal — so every number
representable as a signed 64-bit integer, non-negative ones such as 100
included, is recorded as signed; only a number above `i64::MAX` takes the
unsigned branch. -/
theorem c5_signedness_is_i64 (regions : List Region) (m : Mem) (st : ScannerContext)
    (v : JNumber) (cnt : Nat) (st' : ScannerContext)
    (h : ctx_new_scan regions m st .dword v = some (cnt, st')) :
    st'.signed = some v.is_i64 ∧ st'.value_type = some ScanValueType.dword := by
  unfold ctx_new_scan at h
  cases hsc : st.scanner with
  | none => rw [hsc] at h; simp at h
  | some sc =>
    rw [hsc] at h
    simp only [] at h
    by_cases hi : v.is_i64
    · rw [if_pos hi] at h
      cases hns : new_scan (dwordSignedPred v) 4 regions m with
      | none => rw [hns] at h; simp at h
      | some sc' =>
        rw [hns] at h
        simp at h
        rw [← h.2]
        simp [hi]
    · rw [if_neg hi] at h
      cases hns : new_scan (dwordUnsignedPred v) 4 regions m with
      | none => rw [hns] at h; simp at h
      | some sc' =>
        rw [hns] at h
        simp at h
        rw [← h.2]
        simp [Bool.not_eq_true] at hi
        simp [hi]

theorem c5_witness :
    ({ scanner := some { addresses := [], value_size := 4 },
       value_type := some .dword, signed := some true } : ScannerContext).signed =
      some ((JNumber.int 100).is_i64) :=
  (c5_signedness_is_i64 [] memAny
    { scanner := some { addresses := [], value_size := 0 },
      value_type := none, signed := none } (JNumber.int 100) 0
    { scanner := some { addresses := [], value_size := 4 },
      value_type := some .dword, signed := some true } (by decide)).1

/-- C6 counterexample: `select_process` on a session that remembers
`(DWORD, signed)` leaves both remembered fields in place — they are not
cleared as the claim states. -/
theorem c6_counterexample :
    (select_process
        { scanner := some { addresses := [5], value_size := 4 },
          value_type := some .dword, signed := some true } 7 "tgt").2.value_type =
      some ScanValueType.dword ∧
    (select_process
        { scanner := some { addresses := [5], value_size := 4 },
          value_type := some .dword, signed := some true } 7 "tgt").2.signed =
      some true :=
  ⟨rfl, rfl⟩

/-- C6 (amended): `select_process` installs a fresh engine (empty candidate
set, element width 0) replacing any prior engine and returns the
`{pid, name}` of the target, but the remembered kind and signedness are NOT
cleared — they carry over unchanged into the new session state. -/
theorem c6_select_keeps_type_state (st : ScannerContext) (pid : Int) (name : String) :
    (select_process st pid name).1 = (pid, name) ∧
    (select_process st pid name).2.scanner = some { addresses := [], value_size := 0 } ∧
    (select_process st pid name).2.value_type = st.value_type ∧
    (select_process st pid name).2.signed = st.signed :=
  ⟨rfl, rfl, rfl, rfl⟩

/-- C7 (code bug, evaluated at the failing inputs): the Linux region
enumerator's window logic is inverted.  First conjunct: with window
`[0, 256)` a stack line starting at `0x3000` — at or past `start+limit` —
is still emitted, where the claim requires iteration to have stopped.
Second conjunct: with window start `0x2000`, a line starting below the
window start is not skipped; instead the underflowing limit comparison
terminates iteration, so the perfectly in-window stack line at `0x5000` is
never produced. -/
theorem c7_window_logic_violated :
    regionsFrom [] 0 256
        [{ start := 0x3000, stop := 0x4000, perm := .READWRITE, info := stackInfo }] =
      [{ start := 0x3000, stop := 0x4000, permission := .READWRITE,
         kind := .STACK }] ∧
    regionsFrom [] 0x2000 0x10000
        [{ start := 0x1000, stop := 0x2000, perm := .READWRITE, info := stackInfo },
         { start := 0x5000, stop := 0x6000, perm := .READWRITE, info := stackInfo }] =
      [] := by
  constructor <;> decide

/-- C8 counterexample: a short transfer — the kernel moving 1 of the 10
requested bytes — is reported as full success `Ok(())` by both
`read_memory_slice` and `write_memory_slice`, not as an error. -/
theorem c8_counterexample :
    read_memory_slice 10 (SysResult.ok 1) = Except.ok () ∧
    write_memory_slice 10 (SysResult.ok 1) = Except.ok () ∧ 1 < 10 :=
  ⟨rfl, rfl, by omega⟩

/-- C8 (amended): the Linux bulk transfers return `Ok` exactly when the
underlying syscall returns `Ok`, whatever byte count it reports — the
transferred length is never compared with the requested length, so the calls
are not all-or-nothing. -/
theorem c8_ok_iff_syscall_ok (len : Nat) (sys : SysResult) :
    (read_memory_slice len sys = Except.ok () ↔ ∃ n, sys = SysResult.ok n) ∧
    (write_memory_slice len sys = Except.ok () ↔ ∃ n, sys = SysResult.ok n) := by
  cases sys <;> simp [read_memory_slice, write_memory_slice]

/-- C9 counterexample: a `new_scan` (and a `next_scan`) whose value kind is
the reserved `byte` kind does not produce any result value — the controller
hits `panic!(".. not supported")` (modelled `none`), whose Rust signature
has no error channel at all, so no "unsupported" RPC error response exists
and the panic crashes the handler (spec §6: a panic is a non-zero exit). -/
theorem c9_counterexample :
    ctx_new_scan [] memAny
        { scanner := some { addresses := [], value_size := 0 },
          value_type := none, signed := none } .byte (JNumber.int 5) = none ∧
    ctx_next_scan memAny
        { scanner := some { addresses := [], value_size := 4 },
          value_type := some .dword, signed := some true } .byte (JNumber.int 5) = none :=
  ⟨rfl, rfl⟩

/-- C9 (amended): every scan request whose kind is not `dword` makes
`new_scan` and `next_scan` panic (the `panic!(".. not supported")` arm, or
the earlier scanner `unwrap`), modelled as `none`: no RPC error response is
returned and the candidate set of a selected scanner is never consulted. -/
theorem c9_non_dword_panics (regions : List Region) (m : Mem) (st : ScannerContext)
    (ty : ScanValueType) (v : JNumber) (h : ty ≠ ScanValueType.dword) :
    ctx_new_scan regions m st ty v = none ∧ ctx_next_scan m st ty v = none := by
  unfold ctx_new_scan ctx_next_scan
  cases hsc : st.scanner <;> cases ty <;> simp_all

theorem c9_witness :
    ctx_new_scan [] memAny
        { scanner := some { addresses := [], value_size := 0 },
          value_type := none, signed := none } .qword (JNumber.int 5) = none ∧
    ctx_next_scan memAny
        { scanner := some { addresses := [], value_size := 0 },
          value_type := none, signed := none } .qword (JNumber.int 5) = none :=
  c9_non_dword_panics [] memAny
    { scanner := some { addresses := [], value_size := 0 },
      value_type := none, signed := none } .qword (JNumber.int 5) (by decide)

end MemScan
